import Mathlib

/-!
Verification of the cross-filter aggregation engine of the London burglary
dashboard (`city_burglary_dashboard.py`) and of the ward count-banding module
(`ward_kmeans_bands.py`).

The record table is embedded as a list of `Record`s; absent (NaN/NaT) cells
become `Option.none`.  Pandas operations are embedded with their documented
semantics on such lists:
* `Series.isin(values)` on a column with absent cells: an absent cell never
  matches a list of string values;
* `groupby(col)` drops rows whose key is absent and emits groups keyed by the
  distinct present values in ascending order;
* `Series.dropna().unique()` keeps first occurrences (`List.dedup`);
* `sort_values(by=c, ascending=False)` is embedded from pandas' `nargsort`
  (reverse the column, argsort ascending, reverse the indexer).  The code's
  default `kind='quicksort'` is numpy's unstable introsort, so the program
  guarantees only a permutation of the rows ordered descending by the key:
  the relative order of tied keys is implementation-defined.  The embedding
  instantiates the argsort with one concrete deterministic algorithm
  (`stableSortBy`, an insertion sort); only properties that hold for every
  key-ordered permutation — the multiset of rows, the sums of counts,
  determinism — are claimed of the program, never the model's tie order.

Definitions come first (dashboard, then banding module), followed by the
theorems about them in the same order.
-/

namespace CityDashboard

/-- One incident row of the dashboard's dataframe, restricted to the columns
the filtering logic reads.  `monthDt` is the parsed `MonthDt` column as a
(year, month) pair; a `NaT` (unparseable `Month`) is `none`.  `reportedBy` is
never absent: `load_and_prepare` fills it with the force name.  The other
three columns may be absent (`NaN`). -/
structure Record where
  monthDt : Option (Nat × Nat)
  reportedBy : String
  outcome : Option String
  location : Option String
  lsoaName : Option String
deriving DecidableEq, Repr

/-- Embedding of `Series.isin(values)` at one cell of an optional string column: an absent
cell matches no string value. -/
def isinOpt (v : Option String) (xs : List String) : Bool :=
  match v with
  | none => false
  | some s => xs.contains s

/-- Inclusive range test, as `Series.between(lo, hi)`. -/
def inRange (lo hi x : Nat) : Bool :=
  decide (lo ≤ x ∧ x ≤ hi)

/-- The two `between` conjuncts of the base filter
(`city_burglary_dashboard.py` lines 131-132): year and month of `MonthDt`
must lie in the slider ranges; a missing `MonthDt` yields NaN year/month,
which `between` rejects. -/
def timeClause (yr mr : Nat × Nat) (r : Record) : Bool :=
  match r.monthDt with
  | none => false
  | some ym => inRange yr.1 yr.2 ym.1 && inRange mr.1 mr.2 ym.2

/-- Embedding of `df["Reported by"].isin(forces)` (line 133). -/
def forceClause (forces : List String) (r : Record) : Bool :=
  forces.contains r.reportedBy

/-- Embedding of `df["Last outcome category"].isin(outcomes)` (line 134); the outcome cell
may be absent, the checklist values are strings. -/
def outcomeClause (outcomes : List String) (r : Record) : Bool :=
  isinOpt r.outcome outcomes

/-- The conjunction of the four independent filters applied in
`update_tables` (lines 130-135), `update_lsoa_options`, -/
def passesBase (yr mr : Nat × Nat) (forces outcomes : List String) (r : Record) : Bool :=
  timeClause yr mr r && forceClause forces r && outcomeClause outcomes r

/-- The set `base`: the dataframe restricted by the independent filters. -/
def baseSet (df : List Record) (yr mr : Nat × Nat) (forces outcomes : List String) :
    List Record :=
  df.filter (passesBase yr mr forces outcomes)

/-- One step of a stable insertion sort: walk past every element the
comparator keeps before `a`, so that a later element lands after any earlier
element it ties with. -/
def stableInsert (le : α → α → Bool) (a : α) : List α → List α
  | [] => [a]
  | b :: t => if le b a then b :: stableInsert le a t else a :: b :: t

/-- Stable sort: elements are inserted left to right into an ascending
accumulator, a later element landing after any earlier one it ties with.
This is the behaviour of a stable ascending argsort. -/
def stableSortBy (le : α → α → Bool) (l : List α) : List α :=
  l.foldl (fun acc a => stableInsert le a acc) []

/-- Lexicographic character-code comparison (non-strict), the order Python
uses on `str` and hence the order pandas applies to object-dtype keys. -/
def strLeChars : List Char → List Char → Bool
  | [], _ => true
  | _ :: _, [] => false
  | a :: as, b :: bs =>
    if a.toNat < b.toNat then true
    else if b.toNat < a.toNat then false
    else strLeChars as bs

/-- Comparison `a ≤ b` on strings, by character codes. -/
def strLe (a b : String) : Bool :=
  strLeChars a.data b.data

/-- The option list of the outcome checklist:
`sorted(df["Last outcome category"].dropna().unique())`
(`city_burglary_dashboard.py` line 102): distinct present outcomes, sorted
ascending.  Records with an absent outcome contribute nothing. -/
def outcomeOptions (df : List Record) : List String :=
  stableSortBy strLe (df.filterMap (fun r => r.outcome)).dedup

/-- The mutual-constraint facet resolver, shared shape of
`update_tables` lines 137-149 (and of `update_lsoa_options` /
`update_location_options`): given the selection `sel` in the facet read by
`key1`, compute the valid options of the facet read by `key2`.
* empty selection: `base[key2].dropna().unique().tolist()`;
* otherwise `subset = base[base[key1].isin(sel)]`, then
  `counts = subset.groupby(key2)[key1].nunique()` and the valid options are
  `counts[counts == len(sel)].index.tolist()` (group keys are the distinct
  present `key2` values in ascending order; `nunique` counts distinct
  present `key1` values inside the group). -/
def validOptions (key1 key2 : Record → Option String) (base : List Record)
    (sel : List String) : List String :=
  if sel.isEmpty then (base.filterMap key2).dedup
  else
    let subset := base.filter (fun r => isinOpt (key1 r) sel)
    (stableSortBy strLe ((subset.filterMap key2).dedup)).filter
      (fun b =>
        ((subset.filter
            (fun r => decide (key2 r = some b))).filterMap key1).dedup.length
          == sel.length)

/-- The list `valid_lsoas` of `update_tables` (lines 137-142). -/
def valid_lsoas (base : List Record) (locVals : List String) : List String :=
  validOptions (fun r => r.location) (fun r => r.lsoaName) base locVals

/-- The list `valid_locs` of `update_tables` (lines 144-149). -/
def valid_locs (base : List Record) (lsoaVals : List String) : List String :=
  validOptions (fun r => r.lsoaName) (fun r => r.location) base lsoaVals

/-- Embedding of `groupby(col).size().reset_index(name="Count")`: one row per distinct
present key, keys ascending, each with the number of rows carrying that key. -/
def groupSize (rows : List Record) (key : Record → Option String) :
    List (String × Nat) :=
  (stableSortBy strLe (rows.filterMap key).dedup).map
    (fun k => (k, (rows.filter (fun r => decide (key r = some k))).length))

/-- Embedding of `sort_values(by="Count", ascending=False)`, from pandas'
`nargsort`: reverse the rows, arg-sort them ascending by count, reverse the
resulting order again.  The source uses the default `kind='quicksort'`
(numpy's unstable introsort), so the program fixes only that the result is a
permutation of the rows with counts descending; the relative order of tied
counts is implementation-defined.  The argsort slot is filled here with one
concrete deterministic algorithm (`stableSortBy`); theorems about this table
only use facts that hold for every count-ordered permutation (row multiset,
count sums, determinism), not the model's particular tie order. -/
def sortValuesDesc (t : List (String × Nat)) : List (String × Nat) :=
  (stableSortBy (fun a b => decide (a.2 ≤ b.2)) t.reverse).reverse

/-- The table `loc_df` of `update_tables` (lines 151-152): the location count table. -/
def locationTable (base : List Record) (lsoaVals : List String) :
    List (String × Nat) :=
  sortValuesDesc
    (groupSize (base.filter (fun r => isinOpt r.location (valid_locs base lsoaVals)))
      (fun r => r.location))

/-- The table `lsoa_df` of `update_tables` (lines 153-154): the LSOA count table. -/
def lsoaTable (base : List Record) (locVals : List String) :
    List (String × Nat) :=
  sortValuesDesc
    (groupSize (base.filter (fun r => isinOpt r.lsoaName (valid_lsoas base locVals)))
      (fun r => r.lsoaName))

/-- Modelled from the spec (§4.3), for comparison with the code: the "fully
filtered set" is `base` restricted to rows whose place is in `S_A` (if
non-empty), whose area is in `S_B` (if non-empty), and whose place is in the
valid places of §4.2. -/
def fullyFilteredSpec (base : List Record) (locVals lsoaVals : List String) :
    List Record :=
  base.filter (fun r =>
    (locVals.isEmpty || isinOpt r.location locVals)
      && (lsoaVals.isEmpty || isinOpt r.lsoaName lsoaVals)
      && isinOpt r.location (valid_locs base lsoaVals))

/-- A record with every field present, timestamp June 2024. -/
def rPresent : Record :=
  { monthDt := some (2024, 6), reportedBy := "Metropolitan Police Service",
    outcome := some "Investigation complete", location := some "On or near Bank Street",
    lsoaName := some "City of London 001A" }

/-- A record identical to `rPresent` except that its outcome is absent. -/
def rNoOutcome : Record :=
  { rPresent with outcome := none }

/-- A record identical to `rPresent` except that its timestamp is absent. -/
def rNoMonth : Record :=
  { rPresent with monthDt := none }

/-- The two-record table of the C4 counterexample: one record with a present
outcome, one with an absent outcome. -/
def dfC4 : List Record := [rPresent, rNoOutcome]

/-- The base table of the spec's §8 regression example: area `X` co-occurs
with places `{A}`, area `Y` with places `{A, B}`. -/
def dfC1 : List Record :=
  [{ rPresent with location := some "A", lsoaName := some "X" },
   { rPresent with location := some "A", lsoaName := some "Y" },
   { rPresent with location := some "B", lsoaName := some "Y" }]

/-- The base table of the C2 counterexample: two places in one area. -/
def dfC2 : List Record :=
  [{ rPresent with location := some "A", lsoaName := some "X" },
   { rPresent with location := some "B", lsoaName := some "X" }]

end CityDashboard

namespace WardBands

open CityDashboard (stableInsert stableSortBy)

/-- Embedding of `np.nanargmax` on a list of optional scores (`none` = NaN): the index of
the first maximal present value, or `none` when no value is present (numpy
raises there). -/
def nanargmax : List (Option ℚ) → Option (Nat × ℚ)
  | [] => none
  | none :: t => (nanargmax t).map (fun p => (p.1 + 1, p.2))
  | some v :: t =>
    match nanargmax t with
    | none => some (0, v)
    | some p => if v < p.2 then (p.1 + 1, p.2) else some (0, v)

/-- Embedding of `find_optimal_k` (`ward_kmeans_bands.py` lines 8-42), with the external
library calls abstracted: `sil k` is the silhouette score
`silhouette_score(X, KMeans(n_clusters=k, random_state=0).fit(X).labels_)`
and `n = len(X)`.  For each `k` in `range(min_k, max_k + 1)` the silhouette
is recorded when `k > 1 and len(X) >= k`, and NaN otherwise; the result is
`ks[np.nanargmax(silhouettes)]` (`none` when every entry is NaN, where numpy
raises).  The inertia list and the two plots do not influence the result and
are omitted. -/
def find_optimal_k (sil : Nat → ℚ) (n minK maxK : Nat) : Option Nat :=
  let ks := List.range' minK (maxK + 1 - minK)
  let silhouettes := ks.map (fun k => if 1 < k ∧ k ≤ n then some (sil k) else none)
  (nanargmax silhouettes).map (fun p => ks.getD p.1 0)

/-- Embedding of `np.argsort` on the centroid list: the cluster indices `0..n-1` reordered
so that their centroid values are ascending. -/
def argsort (v : List ℚ) : List Nat :=
  stableSortBy (fun i j => decide (v.getD i 0 ≤ v.getD j 0)) (List.range v.length)

/-- The outputs of `KMeans(n_clusters=k, random_state=0).fit(X)` that
`assign_kmeans_bands` reads: one cluster label per input row, and one
centroid per cluster. -/
structure KMeans where
  labels : List Nat
  centers : List ℚ

/-- One row of the ward count table handled by `assign_kmeans_bands`: the
pre-existing columns (`Ward Name`, `Burglary Count`) and the three columns
the function assigns (`cluster`, `cluster_ordered`, `Burglary Band`), absent
(`none`) before assignment. -/
structure BandRow where
  wardName : String
  burglaryCount : ℚ
  cluster : Option Nat
  clusterOrdered : Option Nat
  band : Option String
deriving DecidableEq, Repr

/-- Embedding of `assign_kmeans_bands` (`ward_kmeans_bands.py` lines 44-58) with the
KMeans fit abstracted as `km`.  The three in-place column assignments
(`df['cluster']`, `df['cluster_ordered']`, `df['Burglary Band']`) are
embedded as explicit state passing: the result is the caller's dataframe
after the call, which the function also returns.
* `df['cluster'] = kmeans.labels_` pairs rows with labels;
* `mapping = {old: new for new, old in enumerate(np.argsort(centroids))}`
  sends a cluster index to its rank in ascending centroid order, i.e. to its
  position in `argsort centroids`;
* `labels = [f"Band {i+1}" for i in range(k)]` and
  `df['Burglary Band'] = df['cluster_ordered'].map(lambda i: labels[i])`. -/
def assign_kmeans_bands (k : Nat) (km : KMeans) (df : List BandRow) : List BandRow :=
  let withCluster := List.zipWith (fun r c => { r with cluster := some c }) df km.labels
  let order := argsort km.centers
  let withOrdered := withCluster.map
    (fun r => { r with clusterOrdered := r.cluster.map (fun c => order.indexOf c) })
  let bandNames := (List.range k).map (fun i => "Band " ++ toString (i + 1))
  withOrdered.map
    (fun r => { r with band := r.clusterOrdered.map (fun i => bandNames.getD i "") })

/-- The concrete KMeans fit of the C8/C9 witnesses: three clusters with
centroids 30, 10, 20 and four row labels. -/
def kmW : KMeans := { labels := [0, 1, 2, 1], centers := [30, 10, 20] }

/-- The concrete ward table of the C8/C9 witnesses, before assignment. -/
def dfW : List BandRow :=
  [{ wardName := "Walbrook", burglaryCount := 30, cluster := none,
     clusterOrdered := none, band := none },
   { wardName := "Aldgate", burglaryCount := 10, cluster := none,
     clusterOrdered := none, band := none },
   { wardName := "Cheap", burglaryCount := 20, cluster := none,
     clusterOrdered := none, band := none },
   { wardName := "Lime Street", burglaryCount := 11, cluster := none,
     clusterOrdered := none, band := none }]

end WardBands

namespace CityDashboard

theorem mem_stableInsert (le : α → α → Bool) (a : α) (l : List α) (x : α) :
    x ∈ stableInsert le a l ↔ x = a ∨ x ∈ l := by
  induction l with
  | nil => simp [stableInsert]
  | cons b t ih =>
    by_cases h : le b a = true
    · simp only [stableInsert, h, if_pos]
      simp only [List.mem_cons, ih]
      tauto
    · simp [stableInsert, h]

theorem stableInsert_perm (le : α → α → Bool) (a : α) (l : List α) :
    List.Perm (stableInsert le a l) (a :: l) := by
  induction l with
  | nil => simp [stableInsert]
  | cons b t ih =>
    by_cases h : le b a = true
    · simp only [stableInsert, h, if_pos]
      exact (List.Perm.cons b ih).trans (List.Perm.swap a b t)
    · simp [stableInsert, h]

theorem foldl_stableInsert_perm (le : α → α → Bool) :
    ∀ (l acc : List α),
      List.Perm (l.foldl (fun acc a => stableInsert le a acc) acc) (acc ++ l) := by
  intro l
  induction l with
  | nil => simp
  | cons a t ih =>
    intro acc
    have h1 : (a :: t).foldl (fun acc a => stableInsert le a acc) acc
        = t.foldl (fun acc a => stableInsert le a acc) (stableInsert le a acc) := rfl
    rw [h1]
    refine ((ih _).trans ?_)
    refine ((stableInsert_perm le a acc).append_right t).trans ?_
    simpa using List.perm_middle.symm

theorem stableSortBy_perm (le : α → α → Bool) (l : List α) :
    List.Perm (stableSortBy le l) l := by
  simpa [stableSortBy] using foldl_stableInsert_perm le l []

theorem mem_stableSortBy (le : α → α → Bool) (l : List α) (x : α) :
    x ∈ stableSortBy le l ↔ x ∈ l :=
  (stableSortBy_perm le l).mem_iff

/-- Pairwise order of a stable insertion: if every element already in the
accumulator is marked `E`-earlier than the inserted one, `R` holds pairwise
after the insertion, for any transitive `R` implied by the comparator on kept
pairs and by a failed comparison on swapped pairs. -/
theorem pairwise_stableInsert (le : α → α → Bool) (R E : α → α → Prop)
    (hR : ∀ a b c, R a b → R b c → R a c)
    (hfalse : ∀ b a, le b a = false → R a b)
    (htrue : ∀ b a, le b a = true → E b a → R b a)
    (a : α) (l : List α) (hl : l.Pairwise R) (hE : ∀ b ∈ l, E b a) :
    (stableInsert le a l).Pairwise R := by
  induction l with
  | nil => simp [stableInsert]
  | cons b t ih =>
    rcases List.pairwise_cons.mp hl with ⟨hbt, hpt⟩
    by_cases h : le b a = true
    · simp only [stableInsert, h, if_pos]
      refine List.pairwise_cons.mpr ⟨?_, ?_⟩
      · intro x hx
        rcases (mem_stableInsert le a t x).mp hx with rfl | hx
        · exact htrue b x h (hE b (List.mem_cons_self b t))
        · exact hbt x hx
      · exact ih hpt (fun c hc => hE c (List.mem_cons_of_mem b hc))
    · have hfb : le b a = false := by
        simpa using h
      simp only [stableInsert, hfb, Bool.false_eq_true, if_neg, not_false_iff]
      refine List.pairwise_cons.mpr ⟨?_, hl⟩
      intro x hx
      rcases List.mem_cons.mp hx with hxb | hx
      · rw [hxb]; exact hfalse b a hfb
      · exact hR a b x (hfalse b a hfb) (hbt x hx)

/-- Pairwise order of the stable sort: if the input is `E`-pairwise (each
element earlier than all later ones), the output is `R`-pairwise. -/
theorem pairwise_stableSortBy (le : α → α → Bool) (R E : α → α → Prop)
    (hR : ∀ a b c, R a b → R b c → R a c)
    (hfalse : ∀ b a, le b a = false → R a b)
    (htrue : ∀ b a, le b a = true → E b a → R b a)
    (l : List α) (hl : l.Pairwise E) :
    (stableSortBy le l).Pairwise R := by
  suffices h : ∀ (l acc : List α), l.Pairwise E → acc.Pairwise R →
      (∀ b ∈ acc, ∀ a ∈ l, E b a) →
      (l.foldl (fun acc a => stableInsert le a acc) acc).Pairwise R by
    exact h l [] hl List.Pairwise.nil (by simp)
  intro l
  induction l with
  | nil => intro acc _ hacc _; simpa using hacc
  | cons a t ih =>
    intro acc hl hacc hcross
    rcases List.pairwise_cons.mp hl with ⟨hat, hpt⟩
    refine ih (stableInsert le a acc) hpt ?_ ?_
    · exact pairwise_stableInsert le R E hR hfalse htrue a acc hacc
        (fun b hb => hcross b hb a (List.mem_cons_self a t))
    · intro b hb x hx
      rcases (mem_stableInsert le a acc b).mp hb with rfl | hb
      · exact hat x hx
      · exact hcross b hb x (List.mem_cons_of_mem a hx)

theorem filterMap_filter_isSome (rows : List Record) (key : Record → Option String) :
    (rows.filter (fun r => (key r).isSome)).filterMap key = rows.filterMap key := by
  induction rows with
  | nil => rfl
  | cons r t ih =>
    cases ho : key r with
    | none => simp [List.filter_cons, List.filterMap_cons, ho, ih]
    | some v => simp [List.filter_cons, List.filterMap_cons, ho, ih]

theorem filter_isin_filter_isSome (rows : List Record) (key : Record → Option String)
    (xs : List String) :
    (rows.filter (fun r => (key r).isSome)).filter (fun r => isinOpt (key r) xs)
      = rows.filter (fun r => isinOpt (key r) xs) := by
  rw [List.filter_filter]
  apply List.filter_congr
  intro r _
  cases ho : key r with
  | none => simp [isinOpt, ho]
  | some v => simp [isinOpt, ho]

/-- C10: records whose place name is absent never influence `countTableA`,
and records whose area name is absent never influence `countTableB`, even
with both facet selections empty — dropping those records from the base
leaves each table unchanged, because the valid option sets are built from
present values only and the tables are restricted to rows whose value is in
the valid set. -/
theorem C10_absent_values_uncounted (base : List Record) :
    locationTable base [] = locationTable (base.filter (fun r => r.location.isSome)) []
      ∧ lsoaTable base [] = lsoaTable (base.filter (fun r => r.lsoaName.isSome)) [] := by
  constructor
  · unfold locationTable valid_locs validOptions
    simp only [List.isEmpty_nil, if_pos]
    rw [filterMap_filter_isSome base (fun r => r.location)]
    rw [filter_isin_filter_isSome base (fun r => r.location)]
  · unfold lsoaTable valid_lsoas validOptions
    simp only [List.isEmpty_nil, if_pos]
    rw [filterMap_filter_isSome base (fun r => r.lsoaName)]
    rw [filter_isin_filter_isSome base (fun r => r.lsoaName)]

/-- Core of the full-coverage rule: with a non-empty duplicate-free selection
`sel` in the facet read by `key1`, a value `b` is a valid option of the facet
read by `key2` iff every selected value co-occurs with `b` in some row of
`base`. -/
theorem mem_validOptions (key1 key2 : Record → Option String) (base : List Record)
    (sel : List String) (hne : sel ≠ []) (hnd : sel.Nodup) (b : String) :
    b ∈ validOptions key1 key2 base sel ↔
      ∀ a ∈ sel, ∃ r ∈ base, key1 r = some a ∧ key2 r = some b := by
  have hempty : sel.isEmpty = false := by
    cases sel with
    | nil => exact absurd rfl hne
    | cons x xs => rfl
  set subset := base.filter (fun r => isinOpt (key1 r) sel) with hsubset
  set L := (subset.filter (fun r => decide (key2 r = some b))).filterMap key1 with hL
  have memL : ∀ x, x ∈ L ↔
      ∃ r ∈ base, isinOpt (key1 r) sel = true ∧ key2 r = some b ∧ key1 r = some x := by
    intro x
    rw [hL]
    constructor
    · intro hx
      rcases List.mem_filterMap.mp hx with ⟨r, hr, hrx⟩
      rcases List.mem_filter.mp hr with ⟨hr2, hr3⟩
      rcases List.mem_filter.mp hr2 with ⟨hrbase, hrsel⟩
      exact ⟨r, hrbase, hrsel, by simpa using hr3, hrx⟩
    · intro ⟨r, hrbase, hrsel, hrb, hrx⟩
      exact List.mem_filterMap.mpr
        ⟨r, List.mem_filter.mpr ⟨List.mem_filter.mpr ⟨hrbase, hrsel⟩, by simpa using hrb⟩, hrx⟩
  have Lsub : ∀ x ∈ L, x ∈ sel := by
    intro x hx
    rcases (memL x).mp hx with ⟨r, _, hrsel, _, hrx⟩
    rw [hrx] at hrsel
    simpa [isinOpt] using hrsel
  have hcooc : ∀ a ∈ sel, (∃ r ∈ base, key1 r = some a ∧ key2 r = some b) → a ∈ L := by
    intro a ha ⟨r, hrbase, hra, hrb⟩
    refine (memL a).mpr ⟨r, hrbase, ?_, hrb, hra⟩
    simpa [isinOpt, hra] using ha
  have hmem_unfold : b ∈ validOptions key1 key2 base sel ↔
      b ∈ (subset.filterMap key2).dedup ∧ L.dedup.length = sel.length := by
    rw [validOptions, hempty]
    simp only [Bool.false_eq_true, if_neg, not_false_iff]
    rw [List.mem_filter]
    rw [mem_stableSortBy]
    simp [hL, hsubset]
  rw [hmem_unfold]
  constructor
  · intro ⟨_, hlen⟩ a ha
    have hsubfin : L.dedup.toFinset ⊆ sel.toFinset := by
      intro x hx
      exact List.mem_toFinset.mpr (Lsub x (List.mem_dedup.mp (List.mem_toFinset.mp hx)))
    have hcards : sel.toFinset.card ≤ L.dedup.toFinset.card := by
      rw [List.toFinset_card_of_nodup (List.nodup_dedup L),
        List.toFinset_card_of_nodup hnd, hlen]
    have heq : L.dedup.toFinset = sel.toFinset :=
      Finset.eq_of_subset_of_card_le hsubfin hcards
    have haL : a ∈ L := by
      have : a ∈ L.dedup.toFinset := heq.symm ▸ List.mem_toFinset.mpr ha
      exact List.mem_dedup.mp (List.mem_toFinset.mp this)
    rcases (memL a).mp haL with ⟨r, hrbase, _, hrb, hra⟩
    exact ⟨r, hrbase, hra, hrb⟩
  · intro hcov
    have hsel_sub : ∀ a ∈ sel, a ∈ L.dedup := by
      intro a ha
      exact List.mem_dedup.mpr (hcooc a ha (hcov a ha))
    have heq : L.dedup.toFinset = sel.toFinset := by
      apply Finset.ext
      intro x
      rw [List.mem_toFinset, List.mem_toFinset, List.mem_dedup]
      exact ⟨fun hx => Lsub x hx, fun hx => List.mem_dedup.mp (hsel_sub x hx)⟩
    have hlen : L.dedup.length = sel.length := by
      rw [← List.toFinset_card_of_nodup (List.nodup_dedup L),
        ← List.toFinset_card_of_nodup hnd, heq]
    refine ⟨?_, hlen⟩
    cases sel with
    | nil => exact absurd rfl hne
    | cons a0 rest =>
      rcases hcov a0 (List.mem_cons_self a0 rest) with ⟨r, hrbase, hra, hrb⟩
      refine List.mem_dedup.mpr (List.mem_filterMap.mpr ⟨r, ?_, hrb⟩)
      refine List.mem_filter.mpr ⟨hrbase, ?_⟩
      simp [isinOpt, hra]

/-- C1: the full-coverage rule.  For every base record set and non-empty
(duplicate-free) selection of places `S_A`, an area `b` is a valid option iff
every selected place co-occurs with `b` in at least one base record; and
symmetrically, for a non-empty selection of areas `S_B`, a place `a` is valid
iff every selected area co-occurs with `a`. -/
theorem C1_full_coverage (base : List Record) (locVals lsoaVals : List String)
    (hA : locVals ≠ []) (hAnd : locVals.Nodup)
    (hB : lsoaVals ≠ []) (hBnd : lsoaVals.Nodup) :
    (∀ b : String, b ∈ valid_lsoas base locVals ↔
        ∀ a ∈ locVals, ∃ r ∈ base, r.location = some a ∧ r.lsoaName = some b)
      ∧ (∀ a : String, a ∈ valid_locs base lsoaVals ↔
          ∀ b ∈ lsoaVals, ∃ r ∈ base, r.lsoaName = some b ∧ r.location = some a) :=
  ⟨fun b => mem_validOptions (fun r => r.location) (fun r => r.lsoaName) base locVals hA hAnd b,
    fun a => mem_validOptions (fun r => r.lsoaName) (fun r => r.location) base lsoaVals hB hBnd a⟩

/-- Witness for C1 at the spec's own example: with `S_A = {A, B}`, `X` fails
coverage of `B` and is excluded while `Y` is included. -/
theorem C1_full_coverage_witness :
    ((∀ b : String, b ∈ valid_lsoas dfC1 ["A", "B"] ↔
        ∀ a ∈ ["A", "B"], ∃ r ∈ dfC1, r.location = some a ∧ r.lsoaName = some b)
      ∧ (∀ a : String, a ∈ valid_locs dfC1 ["X", "Y"] ↔
          ∀ b ∈ ["X", "Y"], ∃ r ∈ dfC1, r.lsoaName = some b ∧ r.location = some a))
      ∧ valid_lsoas dfC1 ["A", "B"] = ["Y"] :=
  ⟨C1_full_coverage dfC1 ["A", "B"] ["X", "Y"] (by decide) (by decide)
      (by decide) (by decide),
    by decide⟩

theorem sortValuesDesc_perm (t : List (String × Nat)) :
    List.Perm (sortValuesDesc t) t := by
  unfold sortValuesDesc
  refine (List.reverse_perm _).trans ?_
  exact (stableSortBy_perm _ _).trans t.reverse_perm

/-- Partition counting: distinct keys covering every row of `rows` split its
length into the per-key filter lengths. -/
theorem sum_filter_lengths (key : Record → Option String) :
    ∀ (K : List String) (rows : List Record), K.Nodup →
      (∀ r ∈ rows, ∃ k ∈ K, key r = some k) →
      (K.map (fun k => (rows.filter (fun r => decide (key r = some k))).length)).sum
        = rows.length := by
  intro K
  induction K with
  | nil =>
    intro rows _ hcov
    have : rows = [] := by
      apply List.eq_nil_iff_forall_not_mem.mpr
      intro r hr
      rcases hcov r hr with ⟨k, hk, _⟩
      exact absurd hk (List.not_mem_nil k)
    simp [this]
  | cons k0 K' ih =>
    intro rows hnd hcov
    rcases List.pairwise_cons.mp hnd with ⟨hk0, hnd'⟩
    set p : Record → Bool := fun r => decide (key r = some k0) with hp
    set rest := rows.filter (fun r => !p r) with hrest
    have hsplit : (rows.filter p).length + rest.length = rows.length := by
      have := (rows.filter_append_perm p).length_eq
      simpa [hrest] using this
    have hcounts : ∀ k ∈ K',
        (rows.filter (fun r => decide (key r = some k))).length
          = (rest.filter (fun r => decide (key r = some k))).length := by
      intro k hk
      have hkk0 : k ≠ k0 := fun h => hk0 k hk h.symm
      rw [hrest, List.filter_filter]
      congr 1
      apply List.filter_congr
      intro r _
      by_cases hkr : key r = some k
      · have hnot : p r = false := by
          rw [hp]
          simp only [decide_eq_false_iff_not]
          rw [hkr]
          intro hcontra
          exact hkk0 (by injection hcontra)
        simp [hkr, hnot]
      · simp [hkr]
    have hcov' : ∀ r ∈ rest, ∃ k ∈ K', key r = some k := by
      intro r hr
      rcases List.mem_filter.mp hr with ⟨hrrows, hrp⟩
      rcases hcov r hrrows with ⟨k, hk, hkr⟩
      rcases List.mem_cons.mp hk with hk0' | hk'
      · exfalso
        rw [hk0'] at hkr
        have : p r = true := by simp [hp, hkr]
        rw [this] at hrp
        exact absurd hrp (by simp)
      · exact ⟨k, hk', hkr⟩
    have hmapeq :
        (K'.map (fun k => (rows.filter (fun r => decide (key r = some k))).length))
          = (K'.map (fun k => (rest.filter (fun r => decide (key r = some k))).length)) :=
      List.map_congr_left hcounts
    calc ((k0 :: K').map
          (fun k => (rows.filter (fun r => decide (key r = some k))).length)).sum
        = (rows.filter p).length
            + (K'.map (fun k =>
                (rows.filter (fun r => decide (key r = some k))).length)).sum := by
          simp [hp]
      _ = (rows.filter p).length + rest.length := by
          rw [hmapeq, ih rest hnd' hcov']
      _ = rows.length := hsplit

/-- The counts of a grouped-and-sorted facet table add up to the number of
rows grouped, provided every row has a present key. -/
theorem facet_table_sum (rows : List Record) (key : Record → Option String)
    (hall : ∀ r ∈ rows, (key r).isSome = true) :
    ((sortValuesDesc (groupSize rows key)).map (fun p => p.2)).sum = rows.length := by
  have hperm := (sortValuesDesc_perm (groupSize rows key)).map (fun p : String × Nat => p.2)
  rw [hperm.sum_eq]
  unfold groupSize
  have hperm2 := (stableSortBy_perm strLe (rows.filterMap key).dedup).map
    (fun k => (rows.filter (fun r => decide (key r = some k))).length)
  rw [List.map_map]
  have hcomp :
      ((fun p : String × Nat => p.2) ∘
          (fun k => (k, (rows.filter (fun r => decide (key r = some k))).length)))
        = fun k => (rows.filter (fun r => decide (key r = some k))).length := rfl
  rw [hcomp, hperm2.sum_eq]
  apply sum_filter_lengths key _ rows (List.nodup_dedup _)
  intro r hr
  cases ho : key r with
  | none =>
    have hs := hall r hr
    rw [ho] at hs
    exact absurd hs (by simp)
  | some k =>
    exact ⟨k, List.mem_dedup.mpr (List.mem_filterMap.mpr ⟨r, hr, ho⟩), rfl⟩

/-- C2 is false on the code: with base `dfC2` (which survives the
independent filters unchanged), `S_A = {A}` and `S_B = {}`, the fully
filtered set of the claim has 1 row, but `countTableA` is built from
`base[Location.isin(valid_locs)]` without restricting to `S_A`, so its
counts add up to 2. -/
theorem C2_counterexample :
    baseSet dfC2 (2024, 2024) (1, 12) ["Metropolitan Police Service"]
        ["Investigation complete"] = dfC2
      ∧ ((locationTable dfC2 []).map (fun p => p.2)).sum = 2
      ∧ (fullyFilteredSpec dfC2 ["A"] []).length = 1
      ∧ ((locationTable dfC2 []).map (fun p => p.2)).sum
          ≠ (fullyFilteredSpec dfC2 ["A"] []).length := by
  decide

/-- C2 amended: the counts of `countTableA` add up to the number of base
rows whose place lies in the valid places (computed from `S_B` by the
full-coverage rule) — the table is not additionally restricted by `S_A` or
`S_B` themselves; symmetrically, the counts of `countTableB` add up to the
number of base rows whose area lies in the valid areas computed from
`S_A`. -/
theorem C2_count_conservation (base : List Record) (locVals lsoaVals : List String) :
    ((locationTable base lsoaVals).map (fun p => p.2)).sum
        = (base.filter (fun r => isinOpt r.location (valid_locs base lsoaVals))).length
      ∧ ((lsoaTable base locVals).map (fun p => p.2)).sum
        = (base.filter (fun r => isinOpt r.lsoaName (valid_lsoas base locVals))).length := by
  constructor
  · apply facet_table_sum
    intro r hr
    have := (List.mem_filter.mp hr).2
    cases ho : r.location with
    | none => rw [ho] at this; simp [isinOpt] at this
    | some v => simp
  · apply facet_table_sum
    intro r hr
    have := (List.mem_filter.mp hr).2
    cases ho : r.lsoaName with
    | none => rw [ho] at this; simp [isinOpt] at this
    | some v => simp

/-- C3 is false on the code: `rPresent` has a present timestamp inside the
selected ranges, yet with an empty force selection it fails the force clause
(`isin([])` is uniformly false, there is no empty-means-all branch), and with
an empty outcome selection it fails the outcome clause; in both cases the
record is excluded by the whole filter. -/
theorem C3_counterexample :
    timeClause (2024, 2024) (1, 12) rPresent = true
      ∧ forceClause [] rPresent = false
      ∧ passesBase (2024, 2024) (1, 12) [] ["Investigation complete"] rPresent = false
      ∧ outcomeClause [] rPresent = false
      ∧ passesBase (2024, 2024) (1, 12) ["Metropolitan Police Service"] [] rPresent
          = false := by
  decide

/-- C3 amended: an empty force selection set excludes every record, and an
empty outcome selection set excludes every record — the checklist clauses are
plain membership tests, so the empty-selection-means-no-restriction rule does
not apply to them (it holds only for the two coupled facet dropdowns). -/
theorem C3_empty_selection_excludes :
    ∀ (yr mr : Nat × Nat) (r : Record),
      (∀ outcomes, passesBase yr mr [] outcomes r = false)
        ∧ (∀ forces, passesBase yr mr forces [] r = false) := by
  intro yr mr r
  constructor
  · intro outcomes
    simp [passesBase, forceClause]
  · intro forces
    simp [passesBase, outcomeClause, isinOpt]
    cases r.outcome <;> simp

/-- C4 is false on the code: in a table with one present-outcome record and
one absent-outcome record, the outcome checklist offers only the present
outcome — there is no "Unknown" bucket — and even with every offered option
selected, the absent-outcome record fails the filter while its sibling
passes: it is silently dropped from all counts. -/
theorem C4_counterexample :
    outcomeOptions dfC4 = ["Investigation complete"]
      ∧ passesBase (2024, 2024) (1, 12) ["Metropolitan Police Service"]
          (outcomeOptions dfC4) rNoOutcome = false
      ∧ passesBase (2024, 2024) (1, 12) ["Metropolitan Police Service"]
          (outcomeOptions dfC4) rPresent = true := by
  decide

/-- C4 amended: a record with an absent outcome never crashes the pipeline,
but it is not represented by an "Unknown" category: every offered outcome
option is the present outcome of some record (absence contributes no
option), and a record whose outcome is absent fails the outcome membership
test against every selection, so it is silently excluded from the base set
and hence from all counts. -/
theorem C4_absent_outcome_dropped :
    (∀ (yr mr : Nat × Nat) (forces outcomes : List String) (r : Record),
        r.outcome = none → passesBase yr mr forces outcomes r = false)
      ∧ (∀ (df : List Record) (o : String),
          o ∈ outcomeOptions df → ∃ r ∈ df, r.outcome = some o) := by
  constructor
  · intro yr mr forces outcomes r h
    simp [passesBase, outcomeClause, isinOpt, h]
  · intro df o ho
    have : o ∈ (df.filterMap (fun r => r.outcome)).dedup := by
      simpa [outcomeOptions, mem_stableSortBy] using ho
    rcases List.mem_filterMap.mp (List.mem_dedup.mp this) with ⟨r, hr, hro⟩
    exact ⟨r, hr, hro⟩

/-- Witness for C4's amended theorem at concrete inputs. -/
theorem C4_absent_outcome_dropped_witness :
    passesBase (2024, 2024) (1, 12) ["Metropolitan Police Service"]
        ["Investigation complete"] rNoOutcome = false
      ∧ ∃ r ∈ dfC4, r.outcome = some "Investigation complete" :=
  ⟨C4_absent_outcome_dropped.1 (2024, 2024) (1, 12) ["Metropolitan Police Service"]
      ["Investigation complete"] rNoOutcome (by decide),
    C4_absent_outcome_dropped.2 dfC4 "Investigation complete" (by decide)⟩

/-- C6: a record with an absent timestamp fails the range test for every
year range and month range (the widest included) and every checklist
selection, and is therefore excluded from the base set of any table. -/
theorem C6_missing_timestamp_excluded (r : Record) (h : r.monthDt = none) :
    ∀ (yr mr : Nat × Nat) (forces outcomes : List String),
      timeClause yr mr r = false
        ∧ passesBase yr mr forces outcomes r = false
        ∧ ∀ df : List Record, r ∉ baseSet df yr mr forces outcomes := by
  intro yr mr forces outcomes
  have ht : timeClause yr mr r = false := by
    simp [timeClause, h]
  have hp : passesBase yr mr forces outcomes r = false := by
    simp [passesBase, ht]
  refine ⟨ht, hp, ?_⟩
  intro df hmem
  have := (List.mem_filter.mp hmem).2
  rw [hp] at this
  exact absurd this (by simp)

/-- Witness for C6 at a concrete record and the widest slider ranges. -/
theorem C6_missing_timestamp_excluded_witness :
    timeClause (0, 1000000) (0, 1000000) rNoMonth = false
      ∧ passesBase (0, 1000000) (0, 1000000) ["Metropolitan Police Service"]
          ["Investigation complete"] rNoMonth = false
      ∧ ∀ df : List Record,
          rNoMonth ∉ baseSet df (0, 1000000) (0, 1000000)
            ["Metropolitan Police Service"] ["Investigation complete"] :=
  C6_missing_timestamp_excluded rNoMonth (by decide) (0, 1000000) (0, 1000000)
    ["Metropolitan Police Service"] ["Investigation complete"]

end CityDashboard

namespace WardBands

open CityDashboard (stableInsert stableSortBy mem_stableSortBy stableSortBy_perm pairwise_stableSortBy)

/-- The function `nanargmax` yields `none` exactly on all-NaN input. -/
theorem nanargmax_eq_none (l : List (Option ℚ)) (h : nanargmax l = none) :
    ∀ x ∈ l, x = none := by
  induction l with
  | nil => intro x hx; exact absurd hx (List.not_mem_nil x)
  | cons a t ih =>
    intro x hx
    cases a with
    | none =>
      have ht : nanargmax t = none := by
        by_contra hne
        rcases Option.ne_none_iff_exists'.mp hne with ⟨p, hp⟩
        rw [nanargmax, hp] at h
        exact absurd h (by simp)
      rcases List.mem_cons.mp hx with rfl | hx
      · rfl
      · exact ih ht x hx
    | some v =>
      exfalso
      cases hrec : nanargmax t with
      | none => simp [nanargmax, hrec] at h
      | some p =>
        simp only [nanargmax, hrec] at h
        split at h <;> simp at h

/-- The function `nanargmax` returns an index holding a present value that weakly
dominates every present value of the list. -/
theorem nanargmax_spec (l : List (Option ℚ)) (i : Nat) (v : ℚ)
    (h : nanargmax l = some (i, v)) :
    l.get? i = some (some v) ∧ ∀ j w, l.get? j = some (some w) → w ≤ v := by
  induction l generalizing i v with
  | nil => exact absurd h (by simp [nanargmax])
  | cons a t ih =>
    cases a with
    | none =>
      cases hrec : nanargmax t with
      | none => simp [nanargmax, hrec] at h
      | some p =>
        simp only [nanargmax, hrec, Option.map_some', Option.some_inj] at h
        obtain ⟨hi, hv⟩ := Prod.mk.inj h
        rcases ih p.1 p.2 (by rw [hrec]) with ⟨hget, hmax⟩
        constructor
        · rw [← hi, List.get?_cons_succ, ← hv]; exact hget
        · intro j w hj
          cases j with
          | zero => rw [List.get?_cons_zero] at hj; exact absurd hj (by simp)
          | succ j' =>
            rw [List.get?_cons_succ] at hj
            rw [← hv]
            exact hmax j' w hj
    | some u =>
      cases hrec : nanargmax t with
      | none =>
        simp only [nanargmax, hrec, Option.some_inj] at h
        obtain ⟨hi, hv⟩ := Prod.mk.inj h
        constructor
        · rw [← hi, List.get?_cons_zero, ← hv]
        · intro j w hj
          cases j with
          | zero =>
            rw [List.get?_cons_zero] at hj
            simp only [Option.some_inj] at hj
            rw [← hv, ← hj]
          | succ j' =>
            rw [List.get?_cons_succ] at hj
            exfalso
            have := nanargmax_eq_none t hrec (some w) (List.get?_mem hj)
            exact absurd this (by simp)
      | some p =>
        simp only [nanargmax, hrec] at h
        rcases ih p.1 p.2 (by rw [hrec]) with ⟨hget, hmax⟩
        by_cases hu : u < p.2
        · rw [if_pos hu] at h
          simp only [Option.some_inj] at h
          obtain ⟨hi, hv⟩ := Prod.mk.inj h
          constructor
          · rw [← hi, List.get?_cons_succ, ← hv]; exact hget
          · intro j w hj
            cases j with
            | zero =>
              rw [List.get?_cons_zero] at hj
              simp only [Option.some_inj] at hj
              rw [← hv, ← hj]
              exact le_of_lt hu
            | succ j' =>
              rw [List.get?_cons_succ] at hj
              rw [← hv]
              exact hmax j' w hj
        · rw [if_neg hu] at h
          simp only [Option.some_inj] at h
          obtain ⟨hi, hv⟩ := Prod.mk.inj h
          constructor
          · rw [← hi, List.get?_cons_zero, ← hv]
          · intro j w hj
            cases j with
            | zero =>
              rw [List.get?_cons_zero] at hj
              simp only [Option.some_inj] at hj
              rw [← hv, ← hj]
            | succ j' =>
              rw [List.get?_cons_succ] at hj
              have hwp : w ≤ p.2 := hmax j' w hj
              have hpu : p.2 ≤ u := le_of_not_lt hu
              rw [← hv]
              exact le_trans hwp hpu

/-- C7: whenever `find_optimal_k` returns a value, that value is a candidate
in `[minK, maxK]` whose silhouette is defined (`k > 1` and `k ≤ len(X)`),
and it maximizes the silhouette over all candidates whose silhouette is
defined — candidates with an undefined silhouette are excluded from the
maximization rather than scored as zero. -/
theorem C7_optimal_k (sil : Nat → ℚ) (n minK maxK b : Nat)
    (h : find_optimal_k sil n minK maxK = some b) :
    (minK ≤ b ∧ b ≤ maxK) ∧ (1 < b ∧ b ≤ n)
      ∧ ∀ k, minK ≤ k → k ≤ maxK → 1 < k → k ≤ n → sil k ≤ sil b := by
  rw [find_optimal_k] at h
  set ks := List.range' minK (maxK + 1 - minK) with hks
  set ss := ks.map (fun k => if 1 < k ∧ k ≤ n then some (sil k) else none) with hss
  cases hmax : nanargmax ss with
  | none => rw [hmax] at h; exact absurd h (by simp)
  | some p =>
    rw [hmax] at h
    simp only [Option.map_some', Option.some_inj] at h
    rcases nanargmax_spec ss p.1 p.2 hmax with ⟨hget, hdom⟩
    rw [hss, List.get?_map] at hget
    cases hk0 : ks.get? p.1 with
    | none => rw [hk0] at hget; exact absurd hget (by simp)
    | some k0 =>
      rw [hk0] at hget
      simp only [Option.map_some', Option.some_inj] at hget
      have hguard : (1 < k0 ∧ k0 ≤ n) ∧ p.2 = sil k0 := by
        by_cases hg : 1 < k0 ∧ k0 ≤ n
        · rw [if_pos hg] at hget
          exact ⟨hg, (Option.some_inj.mp hget).symm⟩
        · rw [if_neg hg] at hget
          exact absurd hget (by simp)
      have hbk0 : b = k0 := by
        rw [← h, List.getD_eq_get? ks p.1 0, hk0]
        rfl
      have hkmem : k0 ∈ ks := List.get?_mem hk0
      have hkrange : minK ≤ k0 ∧ k0 < minK + (maxK + 1 - minK) := by
        rw [hks] at hkmem
        exact List.mem_range'_1.mp hkmem
      refine ⟨⟨by omega, by omega⟩, by rw [hbk0]; exact hguard.1, ?_⟩
      intro k hk1 hk2 hk3 hk4
      have hkmem2 : k ∈ ks := by
        rw [hks]
        apply List.mem_range'_1.mpr
        omega
      rcases List.mem_iff_get?.mp hkmem2 with ⟨j, hj⟩
      have hsj : ss.get? j = some (some (sil k)) := by
        rw [hss, List.get?_map, hj]
        simp only [Option.map_some']
        rw [if_pos ⟨hk3, hk4⟩]
      have := hdom j (sil k) hsj
      rw [hbk0, ← hguard.2]
      exact this

/-- Witness for C7: with `len(X) = 2` and candidates `1..3`, only `k = 2`
has a defined silhouette; even though its score is negative, it is chosen —
the NaN candidates are not treated as silhouette 0. -/
theorem C7_optimal_k_witness :
    find_optimal_k (fun _ => -(1 : ℚ)/2) 2 1 3 = some 2
      ∧ ((1 ≤ 2 ∧ 2 ≤ 3) ∧ (1 < 2 ∧ 2 ≤ 2)
          ∧ ∀ k, 1 ≤ k → k ≤ 3 → 1 < k → k ≤ 2 →
              (fun _ : Nat => -(1 : ℚ)/2) k ≤ (fun _ : Nat => -(1 : ℚ)/2) 2) :=
  ⟨by decide, C7_optimal_k (fun _ => -(1 : ℚ)/2) 2 1 3 2 (by decide)⟩

theorem argsort_perm (v : List ℚ) :
    List.Perm (argsort v) (List.range v.length) :=
  stableSortBy_perm _ _

theorem argsort_length (v : List ℚ) : (argsort v).length = v.length := by
  rw [(argsort_perm v).length_eq, List.length_range]

theorem argsort_nodup (v : List ℚ) : (argsort v).Nodup :=
  (argsort_perm v).nodup_iff.mpr (List.nodup_range v.length)

theorem mem_argsort (v : List ℚ) (c : Nat) : c ∈ argsort v ↔ c < v.length := by
  rw [(argsort_perm v).mem_iff, List.mem_range]

theorem argsort_sorted (v : List ℚ) :
    (argsort v).Pairwise (fun i j => v.getD i 0 ≤ v.getD j 0) := by
  apply pairwise_stableSortBy _ _ (fun i j : Nat => i < j)
  · exact fun a b c h1 h2 => le_trans h1 h2
  · intro b a h
    simp only [decide_eq_false_iff_not, not_le] at h
    exact le_of_lt h
  · intro b a h _
    simpa using h
  · exact List.pairwise_lt_range v.length

/-- Position `indexOf` into `argsort` is the rank of a cluster in ascending centroid
order; clusters with strictly smaller centroid get strictly smaller rank. -/
theorem argsort_indexOf_lt (v : List ℚ) (c1 c2 : Nat)
    (h1 : c1 < v.length) (h2 : c2 < v.length)
    (hv : v.getD c1 0 < v.getD c2 0) :
    (argsort v).indexOf c1 < (argsort v).indexOf c2 := by
  have hm1 : c1 ∈ argsort v := (mem_argsort v c1).mpr h1
  have hm2 : c2 ∈ argsort v := (mem_argsort v c2).mpr h2
  have hp1 : (argsort v).indexOf c1 < (argsort v).length := List.indexOf_lt_length.mpr hm1
  have hp2 : (argsort v).indexOf c2 < (argsort v).length := List.indexOf_lt_length.mpr hm2
  have hg1 : (argsort v)[(argsort v).indexOf c1] = c1 := List.getElem_indexOf hp1
  have hg2 : (argsort v)[(argsort v).indexOf c2] = c2 := List.getElem_indexOf hp2
  rcases Nat.lt_trichotomy ((argsort v).indexOf c1) ((argsort v).indexOf c2) with h | h | h
  · exact h
  · exfalso
    have hq1 : (argsort v)[(argsort v).indexOf c1]? = some c1 := by
      rw [List.getElem?_eq_getElem hp1, hg1]
    rw [h] at hq1
    rw [List.getElem?_eq_getElem hp2, hg2] at hq1
    have hc : c2 = c1 := Option.some_inj.mp hq1
    rw [hc] at hv
    exact lt_irrefl _ hv
  · exfalso
    have := (List.pairwise_iff_getElem.mp (argsort_sorted v))
      ((argsort v).indexOf c2) ((argsort v).indexOf c1) hp2 hp1 h
    rw [hg1, hg2] at this
    exact absurd hv (not_lt.mpr this)

/-- A cluster strictly below all the others has rank 0 (it becomes
"Band 1"). -/
theorem argsort_indexOf_min (v : List ℚ) (c0 : Nat) (h0 : c0 < v.length)
    (hmin : ∀ c, c < v.length → c ≠ c0 → v.getD c0 0 < v.getD c 0) :
    (argsort v).indexOf c0 = 0 := by
  cases harg : argsort v with
  | nil =>
    have hm0 : c0 ∈ argsort v := (mem_argsort v c0).mpr h0
    rw [harg] at hm0
    exact absurd hm0 (List.not_mem_nil c0)
  | cons a rest =>
    by_cases hac : a = c0
    · rw [hac]
      exact List.indexOf_cons_self c0 rest
    · exfalso
      have hsorted := argsort_sorted v
      rw [harg] at hsorted
      rcases List.pairwise_cons.mp hsorted with ⟨hhead, _⟩
      have hm0 : c0 ∈ argsort v := (mem_argsort v c0).mpr h0
      rw [harg] at hm0
      rcases List.mem_cons.mp hm0 with h | h
      · exact hac h.symm
      · have hle : v.getD a 0 ≤ v.getD c0 0 := hhead c0 h
        have hamem : a ∈ argsort v := by
          rw [harg]
          exact List.mem_cons_self a rest
        have halt : a < v.length := (mem_argsort v a).mp hamem
        exact absurd (hmin a halt hac) (not_lt.mpr hle)

/-- A cluster strictly above all the others has the last rank (it becomes
"Band k"). -/
theorem argsort_indexOf_max (v : List ℚ) (c0 : Nat) (h0 : c0 < v.length)
    (hmax : ∀ c, c < v.length → c ≠ c0 → v.getD c 0 < v.getD c0 0) :
    (argsort v).indexOf c0 = v.length - 1 := by
  have hm0 : c0 ∈ argsort v := (mem_argsort v c0).mpr h0
  have hp0 : (argsort v).indexOf c0 < (argsort v).length := List.indexOf_lt_length.mpr hm0
  have hg0 : (argsort v)[(argsort v).indexOf c0] = c0 := List.getElem_indexOf hp0
  have hlenpos : 0 < (argsort v).length := lt_of_le_of_lt (Nat.zero_le _) hp0
  by_contra hne
  have hplt : (argsort v).indexOf c0 < (argsort v).length - 1 := by
    have hlen := argsort_length v
    omega
  have hlast : (argsort v).length - 1 < (argsort v).length := by omega
  set ch := (argsort v)[(argsort v).length - 1] with hch
  have hchmem : ch ∈ argsort v := List.getElem_mem hlast
  have hchlt : ch < v.length := (mem_argsort v ch).mp hchmem
  have hchne : ch ≠ c0 := by
    intro hcontra
    have heq : (argsort v)[(argsort v).length - 1]
        = (argsort v)[(argsort v).indexOf c0] := by
      rw [hg0, ← hch, hcontra]
    have := (List.Nodup.getElem_inj_iff (argsort_nodup v)).mp heq
    omega
  have hvlt : v.getD ch 0 < v.getD c0 0 := hmax ch hchlt hchne
  have hle : v.getD c0 0 ≤ v.getD ch 0 := by
    have := (List.pairwise_iff_getElem.mp (argsort_sorted v))
      ((argsort v).indexOf c0) ((argsort v).length - 1) hp0 hlast hplt
    rw [hg0, ← hch] at this
    exact this
  exact absurd hvlt (not_lt.mpr hle)

theorem mem_zipWith (f : α → β → γ) :
    ∀ (l1 : List α) (l2 : List β), ∀ x ∈ List.zipWith f l1 l2,
      ∃ a ∈ l1, ∃ b ∈ l2, x = f a b := by
  intro l1
  induction l1 with
  | nil => intro l2 x hx; exact absurd hx (by simp)
  | cons a t ih =>
    intro l2 x hx
    cases l2 with
    | nil => exact absurd hx (by simp)
    | cons b t2 =>
      rw [List.zipWith_cons_cons] at hx
      rcases List.mem_cons.mp hx with rfl | hx
      · exact ⟨a, List.mem_cons_self a t, b, List.mem_cons_self b t2, rfl⟩
      · rcases ih t2 x hx with ⟨a', ha', b', hb', hx'⟩
        exact ⟨a', List.mem_cons_of_mem a ha', b', List.mem_cons_of_mem b hb', hx'⟩

/-- Rewriting `assign_kmeans_bands` as a single row-label zip: each row tagged with its
cluster, the cluster's ascending-centroid rank, and the band label of that
rank. -/
theorem assign_kmeans_bands_eq (k : Nat) (km : KMeans) (df : List BandRow) :
    assign_kmeans_bands k km df = List.zipWith (fun r c =>
      { r with cluster := some c,
               clusterOrdered := some ((argsort km.centers).indexOf c),
               band := some (((List.range k).map
                  (fun i => "Band " ++ toString (i + 1))).getD
                    ((argsort km.centers).indexOf c) "") }) df km.labels := by
  unfold assign_kmeans_bands
  simp only [List.map_zipWith]
  rfl

theorem bandNames_getD (k i : Nat) (h : i < k) :
    ((List.range k).map (fun i => "Band " ++ toString (i + 1))).getD i ""
      = "Band " ++ toString (i + 1) := by
  rw [List.getD_eq_getElem _ _ (by simpa using h)]
  simp

/-- C8: the band assignment names the `k` clusters "Band 1" .. "Band k" in
ascending centroid order.  Each input row receives exactly one band label,
"Band (rank+1)" where rank is its cluster's position in the ascending
centroid order; a cluster with strictly smaller centroid gets a strictly
smaller rank; the strictly lowest cluster gets rank 0 ("Band 1") and the
strictly highest gets rank `k - 1` ("Band k"). -/
theorem C8_band_label_ordering (k : Nat) (km : KMeans) (df : List BandRow)
    (hk : km.centers.length = k) (hlab : km.labels.length = df.length)
    (hc : ∀ c ∈ km.labels, c < k) :
    ((assign_kmeans_bands k km df).length = df.length)
      ∧ (∀ r ∈ assign_kmeans_bands k km df, ∃ c, c < k
          ∧ (argsort km.centers).indexOf c < k
          ∧ r.band = some ("Band " ++ toString ((argsort km.centers).indexOf c + 1)))
      ∧ (∀ c1 c2, c1 < k → c2 < k →
          km.centers.getD c1 0 < km.centers.getD c2 0 →
          (argsort km.centers).indexOf c1 < (argsort km.centers).indexOf c2)
      ∧ (∀ c0, c0 < k →
          (∀ c, c < k → c ≠ c0 → km.centers.getD c0 0 < km.centers.getD c 0) →
          (argsort km.centers).indexOf c0 = 0)
      ∧ (∀ c0, c0 < k →
          (∀ c, c < k → c ≠ c0 → km.centers.getD c 0 < km.centers.getD c0 0) →
          (argsort km.centers).indexOf c0 = k - 1) := by
  have hidx : ∀ c, c < k → (argsort km.centers).indexOf c < k := by
    intro c hck
    have : c ∈ argsort km.centers := (mem_argsort km.centers c).mpr (by omega)
    have := List.indexOf_lt_length.mpr this
    rw [argsort_length, hk] at this
    exact this
  refine ⟨?_, ?_, ?_, ?_, ?_⟩
  · rw [assign_kmeans_bands_eq, List.length_zipWith, hlab]
    exact Nat.min_self df.length
  · intro r hr
    rw [assign_kmeans_bands_eq] at hr
    rcases mem_zipWith _ df km.labels r hr with ⟨a, _, c, hcmem, hrac⟩
    have hck : c < k := hc c hcmem
    refine ⟨c, hck, hidx c hck, ?_⟩
    rw [hrac]
    simp only []
    rw [bandNames_getD k _ (hidx c hck)]
  · intro c1 c2 h1 h2 hv
    exact argsort_indexOf_lt km.centers c1 c2 (by omega) (by omega) hv
  · intro c0 h0 hmin
    exact argsort_indexOf_min km.centers c0 (by omega) (by rw [hk]; exact hmin)
  · intro c0 h0 hmax
    rw [← hk]
    exact argsort_indexOf_max km.centers c0 (by omega) (by rw [hk]; exact hmax)

/-- Witness for C8 at the concrete fit `kmW`. -/
theorem C8_band_label_ordering_witness :
    (((assign_kmeans_bands 3 kmW dfW).length = dfW.length)
      ∧ (∀ r ∈ assign_kmeans_bands 3 kmW dfW, ∃ c, c < 3
          ∧ (argsort kmW.centers).indexOf c < 3
          ∧ r.band = some ("Band " ++ toString ((argsort kmW.centers).indexOf c + 1)))
      ∧ (∀ c1 c2, c1 < 3 → c2 < 3 →
          kmW.centers.getD c1 0 < kmW.centers.getD c2 0 →
          (argsort kmW.centers).indexOf c1 < (argsort kmW.centers).indexOf c2)
      ∧ (∀ c0, c0 < 3 →
          (∀ c, c < 3 → c ≠ c0 → kmW.centers.getD c0 0 < kmW.centers.getD c 0) →
          (argsort kmW.centers).indexOf c0 = 0)
      ∧ (∀ c0, c0 < 3 →
          (∀ c, c < 3 → c ≠ c0 → kmW.centers.getD c 0 < kmW.centers.getD c0 0) →
          (argsort kmW.centers).indexOf c0 = 3 - 1))
      ∧ (assign_kmeans_bands 3 kmW dfW).map (fun r => r.band)
          = [some "Band 3", some "Band 1", some "Band 2", some "Band 1"] :=
  ⟨C8_band_label_ordering 3 kmW dfW (by decide) (by decide) (by decide), by decide⟩

theorem map_zipWith_preserves (g : BandRow → Nat → BandRow) (pre : BandRow → α)
    (hpre : ∀ r c, pre (g r c) = pre r) :
    ∀ (df : List BandRow) (ls : List Nat), ls.length = df.length →
      (List.zipWith g df ls).map pre = df.map pre := by
  intro df
  induction df with
  | nil => intro ls _; simp
  | cons r t ih =>
    intro ls hlen
    cases ls with
    | nil => exact absurd hlen (by simp)
    | cons c tc =>
      rw [List.zipWith_cons_cons, List.map_cons, List.map_cons, hpre r c]
      rw [ih tc (by simpa using hlen)]

/-- C9: `assign_kmeans_bands` returns the very table it was handed — the
in-place column assignments, embedded as explicit state passing — with the
three columns `cluster`, `cluster_ordered` and `Burglary Band` now set on
every row, every pre-existing column value left unchanged in the same row
order, and the table observably mutated (the result differs from the input)
whenever the input is non-empty with the added columns initially absent. -/
theorem C9_assign_mutates_input (k : Nat) (km : KMeans) (df : List BandRow)
    (hlab : km.labels.length = df.length) :
    ((assign_kmeans_bands k km df).length = df.length)
      ∧ ((assign_kmeans_bands k km df).map (fun r => (r.wardName, r.burglaryCount))
          = df.map (fun r => (r.wardName, r.burglaryCount)))
      ∧ (∀ r ∈ assign_kmeans_bands k km df,
          r.cluster.isSome ∧ r.clusterOrdered.isSome ∧ r.band.isSome)
      ∧ (df ≠ [] → (∀ r ∈ df, r.cluster = none) →
          assign_kmeans_bands k km df ≠ df) := by
  refine ⟨?_, ?_, ?_, ?_⟩
  · rw [assign_kmeans_bands_eq, List.length_zipWith, hlab]
    exact Nat.min_self df.length
  · rw [assign_kmeans_bands_eq]
    apply map_zipWith_preserves _ _ _ df km.labels hlab
    intro r c
    rfl
  · intro r hr
    rw [assign_kmeans_bands_eq] at hr
    rcases mem_zipWith _ df km.labels r hr with ⟨a, _, c, _, hrac⟩
    rw [hrac]
    exact ⟨rfl, rfl, rfl⟩
  · intro hne hnone heq
    cases hdf : df with
    | nil => exact hne hdf
    | cons r t =>
      cases hls : km.labels with
      | nil =>
        rw [hdf] at hlab
        rw [hls] at hlab
        exact absurd hlab (by simp)
      | cons c tc =>
        rw [assign_kmeans_bands_eq, hdf, hls, List.zipWith_cons_cons] at heq
        injection heq with hhead htail
        have hcl : some c = r.cluster := congrArg BandRow.cluster hhead
        have hrnone : r.cluster = none :=
          hnone r (by rw [hdf]; exact List.mem_cons_self r t)
        rw [hrnone] at hcl
        exact absurd hcl (by simp)

/-- Witness for C9 at the concrete fit `kmW` and table `dfW`. -/
theorem C9_assign_mutates_input_witness :
    ((assign_kmeans_bands 3 kmW dfW).length = dfW.length)
      ∧ ((assign_kmeans_bands 3 kmW dfW).map (fun r => (r.wardName, r.burglaryCount))
          = dfW.map (fun r => (r.wardName, r.burglaryCount)))
      ∧ (∀ r ∈ assign_kmeans_bands 3 kmW dfW,
          r.cluster.isSome ∧ r.clusterOrdered.isSome ∧ r.band.isSome)
      ∧ (dfW ≠ [] → (∀ r ∈ dfW, r.cluster = none) →
          assign_kmeans_bands 3 kmW dfW ≠ dfW) :=
  C9_assign_mutates_input 3 kmW dfW (by decide)

end WardBands
